import Mathlib

/-!
Verification development for the crypto-technicals repository.

The numeric core of the repository (indicator engine in `src/indicators/`,
signal classification, freshness policy and cross-coin aggregation in
`src/exporter/snapshot_exporter.py`) is shallowly embedded here.

Modelling conventions:
* pandas `Series`/`DataFrame` columns become Lean lists over `ℚ`
  (base OHLCV columns, always finite floats in the source) or over
  `Option ℚ` (derived indicator columns, where `none` is the `NaN`
  "no value" marker).
* pandas/NumPy float arithmetic is idealised as exact rational
  arithmetic.  Where the source can produce IEEE `NaN` or `±inf`
  (division by zero, statistics of too-short windows) the embedding
  produces the explicit `none` marker; each such place is noted at the
  definition.
* The square root used by `rolling(...).std()` has no exact rational
  counterpart, so every definition that needs it takes an explicit
  function argument `sq : ℚ → ℚ`; no theorem below depends on the
  values of `sq`.
* In-place mutation of dataframes is made explicit by state passing:
  every Python function that receives a dataframe object it could
  mutate is embedded as `DataFrame → DataFrame × β`, the first component
  the state of the caller's frame object when the call returns.
-/

/-! ### Generic list helpers (pandas primitives) -/

/-- Arithmetic mean of a list, `Series.mean()`; the sources only apply it
to non-empty slices. -/
def meanQ (xs : List ℚ) : ℚ := xs.sum / (xs.length : ℚ)

/-- `Series.diff()`: first entry is `NaN`, entry `t > 0` is `x[t] - x[t-1]`. -/
def diffQ : List ℚ → List (Option ℚ)
  | [] => []
  | x :: xs => none :: List.zipWith (fun a b => some (a - b)) xs (x :: xs)

/-- `Series.shift(1)`: first entry is `NaN`, entry `t > 0` is `x[t-1]`. -/
def shift1 : List ℚ → List (Option ℚ)
  | [] => []
  | xs => none :: (xs.dropLast.map some)

/-- `Series.tail(n)`: the last `n` entries (all of them when `n` exceeds
the length). -/
def tailN (n : ℕ) (xs : List α) : List α := xs.drop (xs.length - n)

/-- Running cumulative sum, `Series.cumsum()` on an all-finite series. -/
def cumsumGo (acc : ℚ) : List ℚ → List ℚ
  | [] => []
  | x :: xs => (acc + x) :: cumsumGo (acc + x) xs

/-- `Series.cumsum()`. -/
def cumsumQ (xs : List ℚ) : List ℚ := cumsumGo 0 xs

/-- Elementwise combination of two columns; `NaN` propagates, as for
float arithmetic on aligned pandas series. -/
def zipWithOpt (f : ℚ → ℚ → ℚ) (xs ys : List (Option ℚ)) : List (Option ℚ) :=
  List.zipWith (fun a b => match a, b with
    | some x, some y => some (f x y)
    | _, _ => none) xs ys

/-- One step of the running weighted state `(numerator, denominator)` of
pandas `Series.ewm(adjust=False, ignore_na=False).mean()`.  A `NaN`
observation decays both components; the first valid observation starts
the state at `(v, 1)`; later valid observations update both components
with weight `α`. -/
def ewmStep (a : ℚ) (st : ℚ × ℚ) (x : Option ℚ) : ℚ × ℚ :=
  match x with
  | none => ((1 - a) * st.1, (1 - a) * st.2)
  | some v => if st.2 = 0 then (v, 1) else ((1 - a) * st.1 + a * v, (1 - a) * st.2 + a)

/-- Output of the EWM state: `NaN` before any valid observation,
otherwise the weighted mean. -/
def ewmOut (st : ℚ × ℚ) : Option ℚ := if st.2 = 0 then none else some (st.1 / st.2)

/-- Recursion of `ewmAdjFalse` carrying the weighted state. -/
def ewmGo (a : ℚ) (st : ℚ × ℚ) : List (Option ℚ) → List (Option ℚ)
  | [] => []
  | x :: xs => ewmOut (ewmStep a st x) :: ewmGo a (ewmStep a st x) xs

/-- pandas `Series.ewm(..., adjust=False).mean()` with smoothing factor
`a`: on an all-finite series this is the recurrence `y[0] = x[0]`,
`y[t] = (1-a)*y[t-1] + a*x[t]`; interior `NaN`s keep the running mean
and decay the weights, leading `NaN`s give `NaN`. -/
def ewmAdjFalse (a : ℚ) (xs : List (Option ℚ)) : List (Option ℚ) := ewmGo a (0, 0) xs

/-- Tail of the plain exponential-smoothing recurrence on an all-finite
series: each output is `c*a + prev*(1-a)`. -/
def emaRecGo (a prev : ℚ) : List ℚ → List ℚ
  | [] => []
  | c :: cs => (c * a + prev * (1 - a)) :: emaRecGo a (c * a + prev * (1 - a)) cs

/-- Modelled from the spec: explicit reference recurrence of §4.1,
`ema[0] = close[0]`, `ema[t] = close[t]*α + ema[t-1]*(1-α)` with
`α = 2/(period+1)`. -/
def ema_spec (close : List ℚ) (period : ℕ) : List ℚ :=
  match close with
  | [] => []
  | c :: cs => c :: emaRecGo (2 / ((period : ℚ) + 1)) c cs

/-! ### Indicator functions of `src/indicators/` -/

/-- `ema.calculate_ema(data, period)`:
`data.ewm(span=period, adjust=False).mean()`; the span parameter gives
smoothing factor `2/(period+1)`. -/
def calculate_ema (data : List ℚ) (period : ℕ) : List (Option ℚ) :=
  ewmAdjFalse (2 / ((period : ℚ) + 1)) (data.map some)

/-! ### Proofs about EWM -/

theorem ewmGo_length (a : ℚ) (st : ℚ × ℚ) (xs : List (Option ℚ)) :
    (ewmGo a st xs).length = xs.length := by
  induction xs generalizing st with
  | nil => rfl
  | cons x xs ih => simp [ewmGo, ih]

theorem ewmAdjFalse_length (a : ℚ) (xs : List (Option ℚ)) :
    (ewmAdjFalse a xs).length = xs.length := ewmGo_length a _ xs

theorem emaRecGo_length (a prev : ℚ) (xs : List ℚ) :
    (emaRecGo a prev xs).length = xs.length := by
  induction xs generalizing prev with
  | nil => rfl
  | cons x xs ih => simp [emaRecGo, ih]

/-- On an all-finite series, once the EWM state has denominator `1`
the library update coincides with the plain recurrence. -/
theorem ewmGo_map_some (a y : ℚ) (xs : List ℚ) :
    ewmGo a (y, 1) (xs.map some) = (emaRecGo a y xs).map some := by
  induction xs generalizing y with
  | nil => rfl
  | cons x xs ih =>
    have hden : (1 - a) * 1 + a = 1 := by ring
    have hnum : (1 - a) * y + a * x = x * a + y * (1 - a) := by ring
    simp only [List.map, ewmGo, emaRecGo, ewmStep, ewmOut, hden, hnum]
    rw [if_neg one_ne_zero, if_neg one_ne_zero, div_one]
    exact congrArg _ (ih _)

/-- Plain exponential-smoothing recurrence on an all-finite series:
`y[0] = x[0]`, `y[t] = (1-a)*y[t-1] + a*x[t]`. -/
def ewmRecQ (a : ℚ) : List ℚ → List ℚ
  | [] => []
  | c :: cs => c :: emaRecGo a c cs

/-- On an all-finite series the library EWM is the plain recurrence. -/
theorem ewmAdjFalse_map_some (a : ℚ) (xs : List ℚ) :
    ewmAdjFalse a (xs.map some) = (ewmRecQ a xs).map some := by
  cases xs with
  | nil => rfl
  | cons c cs =>
    simp only [List.map, ewmAdjFalse, ewmGo, ewmStep, ewmOut, ewmRecQ, if_pos, if_true]
    norm_num
    exact ewmGo_map_some a c cs

/-- C6: for every non-empty price series and every period `p ≥ 1`, the
EMA computed through the library operator
(`data.ewm(span=period, adjust=False).mean()`) equals, at every index,
the explicit reference recurrence `ema[0] = close[0]`,
`ema[t] = close[t]*α + ema[t-1]*(1-α)` with `α = 2/(period+1)`. -/
theorem ema_refines_spec (data : List ℚ) (period : ℕ)
    (hp : 1 ≤ period) (hne : data ≠ []) :
    calculate_ema data period = (ema_spec data period).map some := by
  cases data with
  | nil => exact absurd rfl hne
  | cons c cs =>
    simpa [ema_spec, ewmRecQ] using ewmAdjFalse_map_some (2 / ((period : ℚ) + 1)) (c :: cs)

/-- Witness for C6 at the concrete series `[1, 2]` with period `1`. -/
theorem ema_refines_spec_witness :
    1 ≤ 1 ∧ ([(1 : ℚ), 2] ≠ []) ∧
      calculate_ema [(1 : ℚ), 2] 1 = (ema_spec [(1 : ℚ), 2] 1).map some :=
  ⟨le_refl 1, by simp, ema_refines_spec [(1 : ℚ), 2] 1 (le_refl 1) (by simp)⟩

/-! ### RSI (`src/indicators/rsi.py`) -/

/-- Per-step gains of `calculate_rsi`:
`delta.where(delta > 0, 0)`.  The `NaN` head of `delta` fails the
comparison, so it is replaced by `0` like any non-positive step. -/
def rsiGains (data : List ℚ) : List ℚ :=
  (diffQ data).map (fun d => match d with
    | some v => if 0 < v then v else 0
    | none => 0)

/-- Per-step losses of `calculate_rsi`:
`-delta.where(delta < 0, 0)`, i.e. the negated negative steps, `0`
elsewhere (including the `NaN` head, whose comparison is false). -/
def rsiLosses (data : List ℚ) : List ℚ :=
  (diffQ data).map (fun d => match d with
    | some v => if v < 0 then -v else 0
    | none => 0)

/-- Wilder-smoothed average gains:
`gains.ewm(alpha=1/period, adjust=False).mean()`. -/
def rsiAvgGains (data : List ℚ) (period : ℕ) : List (Option ℚ) :=
  ewmAdjFalse (1 / (period : ℚ)) ((rsiGains data).map some)

/-- Wilder-smoothed average losses:
`losses.ewm(alpha=1/period, adjust=False).mean()`. -/
def rsiAvgLosses (data : List ℚ) (period : ℕ) : List (Option ℚ) :=
  ewmAdjFalse (1 / (period : ℚ)) ((rsiLosses data).map some)

/-- Float semantics of `rs = g/l; rsi = 100 - 100/(1 + rs)` for one index.
When `l = 0` and `g ≠ 0` the float quotient is `±inf` and the formula
collapses to `100`; when both are `0` the quotient is `NaN`, which
propagates.  (For `l ≠ 0` with `1 + g/l = 0` the float result would be an
infinity; that needs a negative smoothed average, which the construction
of gains and losses never produces.) -/
def rsiCombine (g l : ℚ) : Option ℚ :=
  if l = 0 then (if g = 0 then none else some 100)
  else some (100 - 100 / (1 + g / l))

/-- Pointwise RSI combination on aligned option-valued averages; `NaN`
averages propagate. -/
def combineRsiOpt (g l : Option ℚ) : Option ℚ :=
  match g, l with
  | some g, some l => rsiCombine g l
  | _, _ => none

/-- `rsi.calculate_rsi(data, period)`:
gain/loss separation, Wilder smoothing with `alpha = 1/period`, then
`rsi = 100 - 100/(1 + avg_gain/avg_loss)` under float semantics. -/
def calculate_rsi (data : List ℚ) (period : ℕ) : List (Option ℚ) :=
  List.zipWith combineRsiOpt (rsiAvgGains data period) (rsiAvgLosses data period)

/-! ### Proofs about RSI -/

theorem emaRecGo_nonneg {a prev : ℚ} {xs : List ℚ} (ha0 : 0 ≤ a) (ha1 : a ≤ 1)
    (hprev : 0 ≤ prev) (hxs : ∀ x ∈ xs, 0 ≤ x) :
    ∀ y ∈ emaRecGo a prev xs, 0 ≤ y := by
  induction xs generalizing prev with
  | nil => intro y hy; simp [emaRecGo] at hy
  | cons x xs ih =>
    intro y hy
    have hx : 0 ≤ x := hxs x (by simp)
    have hstep : 0 ≤ x * a + prev * (1 - a) := by
      have h1 : 0 ≤ x * a := mul_nonneg hx ha0
      have h2 : 0 ≤ prev * (1 - a) := mul_nonneg hprev (by linarith)
      linarith
    simp only [emaRecGo, List.mem_cons] at hy
    rcases hy with rfl | hy
    · exact hstep
    · exact ih hstep (fun z hz => hxs z (by simp [hz])) y hy

theorem ewmRecQ_nonneg {a : ℚ} {xs : List ℚ} (ha0 : 0 ≤ a) (ha1 : a ≤ 1)
    (hxs : ∀ x ∈ xs, 0 ≤ x) : ∀ y ∈ ewmRecQ a xs, 0 ≤ y := by
  cases xs with
  | nil => intro y hy; simp [ewmRecQ] at hy
  | cons c cs =>
    intro y hy
    have hc : 0 ≤ c := hxs c (by simp)
    simp only [ewmRecQ, List.mem_cons] at hy
    rcases hy with rfl | hy
    · exact hc
    · exact emaRecGo_nonneg ha0 ha1 hc (fun z hz => hxs z (by simp [hz])) y hy

theorem rsiGains_nonneg (data : List ℚ) : ∀ x ∈ rsiGains data, 0 ≤ x := by
  intro x hx
  simp only [rsiGains, List.mem_map] at hx
  obtain ⟨d, _, rfl⟩ := hx
  cases d with
  | none => exact le_refl 0
  | some v =>
    by_cases h : 0 < v
    · simp [h]; linarith
    · simp [h]

theorem rsiLosses_nonneg (data : List ℚ) : ∀ x ∈ rsiLosses data, 0 ≤ x := by
  intro x hx
  simp only [rsiLosses, List.mem_map] at hx
  obtain ⟨d, _, rfl⟩ := hx
  cases d with
  | none => exact le_refl 0
  | some v =>
    by_cases h : v < 0
    · simp [h]; linarith
    · simp [h]

theorem rsiCombine_bounds {g l r : ℚ} (hg : 0 ≤ g) (hl : 0 ≤ l)
    (h : rsiCombine g l = some r) : 0 ≤ r ∧ r ≤ 100 := by
  unfold rsiCombine at h
  by_cases hl0 : l = 0
  · rw [if_pos hl0] at h
    by_cases hg0 : g = 0
    · simp [hg0] at h
    · rw [if_neg hg0] at h
      cases h
      norm_num
  · rw [if_neg hl0] at h
    cases h
    have hlpos : 0 < l := lt_of_le_of_ne hl (Ne.symm hl0)
    have hq : 0 ≤ g / l := div_nonneg hg hl
    have h1 : (1 : ℚ) ≤ 1 + g / l := by linarith
    have h1pos : (0 : ℚ) < 1 + g / l := by linarith
    have hle : 100 / (1 + g / l) ≤ 100 := by
      calc 100 / (1 + g / l) ≤ 100 / 1 := by
            apply div_le_div_of_nonneg_left (by norm_num) (by norm_num) h1
        _ = 100 := by norm_num
    have hpos : 0 < 100 / (1 + g / l) := div_pos (by norm_num) h1pos
    constructor <;> linarith

/-- Hypothesis bundle: the smoothing factor `1/period` lies in `[0, 1]`
for `period ≥ 1`. -/
theorem rsiAlpha_mem {period : ℕ} (hp : 1 ≤ period) :
    0 ≤ 1 / (period : ℚ) ∧ 1 / (period : ℚ) ≤ 1 := by
  have hp1 : (1 : ℚ) ≤ (period : ℚ) := by exact_mod_cast hp
  have hppos : (0 : ℚ) < (period : ℚ) := by linarith
  constructor
  · positivity
  · rw [div_le_one hppos]; exact hp1

/-- C7: for every price series and every period `p ≥ 1`, every defined
RSI value lies in `[0, 100]`; RSI is exactly `100` at any index where the
smoothed average loss is `0` and the smoothed average gain is positive;
and RSI is undefined at any index where both smoothed averages are `0`. -/
theorem rsi_bounds_and_saturation (data : List ℚ) (period : ℕ) (hp : 1 ≤ period) :
    (∀ (t : ℕ) (r : ℚ), (calculate_rsi data period)[t]? = some (some r) →
      0 ≤ r ∧ r ≤ 100) ∧
    (∀ (t : ℕ) (g : ℚ), (rsiAvgLosses data period)[t]? = some (some 0) →
      (rsiAvgGains data period)[t]? = some (some g) → 0 < g →
      (calculate_rsi data period)[t]? = some (some 100)) ∧
    (∀ (t : ℕ), (rsiAvgLosses data period)[t]? = some (some 0) →
      (rsiAvgGains data period)[t]? = some (some 0) →
      (calculate_rsi data period)[t]? = some none) := by
  obtain ⟨ha0, ha1⟩ := rsiAlpha_mem hp
  have hG : rsiAvgGains data period =
      (ewmRecQ (1 / (period : ℚ)) (rsiGains data)).map some :=
    ewmAdjFalse_map_some _ _
  have hL : rsiAvgLosses data period =
      (ewmRecQ (1 / (period : ℚ)) (rsiLosses data)).map some :=
    ewmAdjFalse_map_some _ _
  refine ⟨?_, ?_, ?_⟩
  · intro t r hr
    simp only [calculate_rsi, List.getElem?_zipWith] at hr
    cases hgt : (rsiAvgGains data period)[t]? with
    | none => rw [hgt] at hr; simp at hr
    | some g0 =>
      cases hlt : (rsiAvgLosses data period)[t]? with
      | none => rw [hgt, hlt] at hr; simp at hr
      | some l0 =>
        rw [hgt, hlt] at hr
        simp only [Option.some_inj] at hr
        cases g0 with
        | none => simp [combineRsiOpt] at hr
        | some g =>
          cases l0 with
          | none => simp [combineRsiOpt] at hr
          | some l =>
            have hgmem : some g ∈ rsiAvgGains data period := List.getElem?_mem hgt
            have hlmem : some l ∈ rsiAvgLosses data period := List.getElem?_mem hlt
            rw [hG, List.mem_map] at hgmem
            rw [hL, List.mem_map] at hlmem
            obtain ⟨g1, hg1, hg1e⟩ := hgmem
            obtain ⟨l1, hl1, hl1e⟩ := hlmem
            cases hg1e
            cases hl1e
            have hgnn : 0 ≤ g :=
              ewmRecQ_nonneg ha0 ha1 (rsiGains_nonneg data) g hg1
            have hlnn : 0 ≤ l :=
              ewmRecQ_nonneg ha0 ha1 (rsiLosses_nonneg data) l hl1
            exact rsiCombine_bounds hgnn hlnn hr
  · intro t g hlt hgt hgpos
    simp only [calculate_rsi, List.getElem?_zipWith, hgt, hlt]
    simp [combineRsiOpt, rsiCombine, ne_of_gt hgpos]
  · intro t hlt hgt
    simp only [calculate_rsi, List.getElem?_zipWith, hgt, hlt]
    simp [combineRsiOpt, rsiCombine]

/-- Witness for C7 at the rising series `[1, 2]` with period `1`: at
index `1` the average loss is `0`, the average gain is `1`, and RSI
saturates at `100`. -/
theorem rsi_bounds_and_saturation_witness :
    (rsiAvgLosses [(1 : ℚ), 2] 1)[1]? = some (some 0) ∧
    (rsiAvgGains [(1 : ℚ), 2] 1)[1]? = some (some 1) ∧
    (0 : ℚ) < 1 ∧
    (calculate_rsi [(1 : ℚ), 2] 1)[1]? = some (some 100) := by
  have hl : (rsiAvgLosses [(1 : ℚ), 2] 1)[1]? = some (some 0) := by
    norm_num [rsiAvgLosses, rsiLosses, diffQ, ewmAdjFalse, ewmGo, ewmStep, ewmOut]
  have hg : (rsiAvgGains [(1 : ℚ), 2] 1)[1]? = some (some 1) := by
    norm_num [rsiAvgGains, rsiGains, diffQ, ewmAdjFalse, ewmGo, ewmStep, ewmOut]
  exact ⟨hl, hg, by norm_num,
    (rsi_bounds_and_saturation [(1 : ℚ), 2] 1 (le_refl 1)).2.1 1 1 hl hg (by norm_num)⟩

/-! ### Dataframes -/

/-- An OHLCV dataframe: the five base columns produced by the fetch
layer plus the indicator columns appended by the engine. -/
structure DataFrame where
  opn : List ℚ
  high : List ℚ
  low : List ℚ
  close : List ℚ
  volume : List ℚ
  extra : List (String × List (Option ℚ))

/-- `df.copy()`: the copied object has the same columns; mutating the
copy leaves the original untouched, which the state-passing embedding
renders by keeping the original value. -/
def DataFrame.copy (df : DataFrame) : DataFrame := df

/-- Column assignment `df[name] = col`: replaces the column when the
name already exists, otherwise appends it. -/
def setColList (extra : List (String × List (Option ℚ))) (name : String)
    (col : List (Option ℚ)) : List (String × List (Option ℚ)) :=
  if extra.any (fun p => p.1 = name) then
    extra.map (fun p => if p.1 = name then (name, col) else p)
  else extra ++ [(name, col)]

/-- `df[name] = col` on a frame (indicator columns only; the engine
never reassigns a base column). -/
def DataFrame.setCol (df : DataFrame) (name : String) (col : List (Option ℚ)) : DataFrame :=
  { df with extra := setColList df.extra name col }

/-- Lookup of an indicator column, `df[name]` / `name in df.columns`
restricted to appended columns. -/
def getCol (extra : List (String × List (Option ℚ))) (name : String) :
    Option (List (Option ℚ)) :=
  (extra.find? (fun p => p.1 = name)).map Prod.snd

/-! ### True Range and ATR (`src/indicators/atr.py`) -/

/-- pandas row-wise `max(axis=1)` over two cells with the default
`skipna=True`: `NaN` cells are ignored, the maximum is `NaN` only when
both cells are. -/
def maxSkipNa2 (x y : Option ℚ) : Option ℚ :=
  match x, y with
  | some a, some b => some (max a b)
  | some a, none => some a
  | none, some b => some b
  | none, none => none

/-- `atr.calculate_true_range(df)`:
`hl = high - low`, `hc = |high - close.shift(1)|`,
`lc = |low - close.shift(1)|`, row-wise maximum with `skipna=True`.
At index `0` the shifted close is `NaN`, so only the `hl` candidate
survives. -/
def calculate_true_range (df : DataFrame) : List (Option ℚ) :=
  let hl := List.zipWith (fun h l => some (h - l)) df.high df.low
  let hc := List.zipWith (fun h pc => pc.map (fun c => |h - c|)) df.high (shift1 df.close)
  let lc := List.zipWith (fun l pc => pc.map (fun c => |l - c|)) df.low (shift1 df.close)
  List.zipWith maxSkipNa2 (List.zipWith maxSkipNa2 hl hc) lc

/-- `atr.calculate_atr(df, period)`:
`true_range.ewm(span=period, adjust=False).mean()`. -/
def calculate_atr (df : DataFrame) (period : ℕ) : List (Option ℚ) :=
  ewmAdjFalse (2 / ((period : ℚ) + 1)) (calculate_true_range df)

/-! ### Proofs about True Range -/

theorem shift1_length (xs : List ℚ) : (shift1 xs).length = xs.length := by
  cases xs with
  | nil => rfl
  | cons x l => simp [shift1]

theorem shift1_getElem_zero (xs : List ℚ) (h : xs ≠ []) : (shift1 xs)[0]? = some none := by
  cases xs with
  | nil => exact absurd rfl h
  | cons x l => simp [shift1]

theorem shift1_getElem_succ (xs : List ℚ) (t : ℕ) (h : t + 1 < xs.length) :
    (shift1 xs)[t + 1]? = some (some (xs.getD t 0)) := by
  cases xs with
  | nil => simp at h
  | cons x l =>
    simp only [shift1, List.getElem?_cons_succ]
    rw [List.getElem?_map, List.getElem?_dropLast]
    rw [if_pos (by simpa using h)]
    rw [List.getElem?_eq_getElem (by omega)]
    simp [List.getD_eq_getElem?_getD, List.getElem?_eq_getElem (show t < (x :: l).length by omega)]

theorem calculate_true_range_length (df : DataFrame) (n : ℕ)
    (hh : df.high.length = n) (hl : df.low.length = n) (hc : df.close.length = n) :
    (calculate_true_range df).length = n := by
  simp [calculate_true_range, List.length_zipWith, shift1_length, hh, hl, hc]

theorem calculate_atr_length (df : DataFrame) (period : ℕ) (n : ℕ)
    (hh : df.high.length = n) (hl : df.low.length = n) (hc : df.close.length = n) :
    (calculate_atr df period).length = n := by
  rw [calculate_atr, ewmAdjFalse_length, calculate_true_range_length df n hh hl hc]

/-- Index lookup of a defined position, phrased with a default. -/
theorem getElem?_eq_some_getD {xs : List ℚ} {t : ℕ} (h : t < xs.length) :
    xs[t]? = some (xs.getD t 0) := by
  simp [List.getD_eq_getElem?_getD, List.getElem?_eq_getElem h]

/-- C3 counterexample: on the one-candle frame with `high = 10`,
`low = 7`, `close = 9`, the True Range at index `0` is the defined value
`3 = high - low`, not the no-value marker the claim requires. -/
theorem true_range_index0_counterexample :
    (calculate_true_range ⟨[8], [10], [7], [9], [1], []⟩)[0]? = some (some 3) ∧
    (calculate_true_range ⟨[8], [10], [7], [9], [1], []⟩)[0]? ≠ some none := by
  constructor <;> norm_num [calculate_true_range, shift1, maxSkipNa2] <;> simp

/-- C3 (amended): for every frame whose base columns have common length
`n ≥ 1`, True Range at index `0` is the defined value
`high[0] - low[0]` (the two previous-close candidates are `NaN` and the
row-wise maximum skips them), and at every index `t > 0` it equals
`max(high[t]-low[t], |high[t]-close[t-1]|, |low[t]-close[t-1]|)`. -/
theorem true_range_values (df : DataFrame) (n : ℕ)
    (hh : df.high.length = n) (hl : df.low.length = n) (hc : df.close.length = n)
    (hn : 1 ≤ n) :
    (calculate_true_range df)[0]? =
      some (some (df.high.getD 0 0 - df.low.getD 0 0)) ∧
    ∀ (t : ℕ), 0 < t → t < n →
      (calculate_true_range df)[t]? =
        some (some (max (max (df.high.getD t 0 - df.low.getD t 0)
          |df.high.getD t 0 - df.close.getD (t - 1) 0|)
          |df.low.getD t 0 - df.close.getD (t - 1) 0|)) := by
  have hcne : df.close ≠ [] := by
    intro h0
    rw [h0] at hc
    simp at hc
    omega
  constructor
  · have h1 : df.high[0]? = some (df.high.getD 0 0) := getElem?_eq_some_getD (by omega)
    have h2 : df.low[0]? = some (df.low.getD 0 0) := getElem?_eq_some_getD (by omega)
    have h3 := shift1_getElem_zero df.close hcne
    simp only [calculate_true_range, List.getElem?_zipWith, h1, h2, h3]
    simp [maxSkipNa2]
  · intro t ht htn
    obtain ⟨s, rfl⟩ : ∃ s, t = s + 1 := ⟨t - 1, by omega⟩
    have h1 : df.high[s + 1]? = some (df.high.getD (s + 1) 0) :=
      getElem?_eq_some_getD (by omega)
    have h2 : df.low[s + 1]? = some (df.low.getD (s + 1) 0) :=
      getElem?_eq_some_getD (by omega)
    have h3 : (shift1 df.close)[s + 1]? = some (some (df.close.getD s 0)) :=
      shift1_getElem_succ df.close s (by omega)
    simp only [calculate_true_range, List.getElem?_zipWith, h1, h2, h3]
    simp [maxSkipNa2]

/-- Witness for C3 (amended) on a two-candle frame: index 0 gives
`high - low = 3`, index 1 gives `max(4, 3, 1) = 4`. -/
theorem true_range_values_witness :
    (calculate_true_range ⟨[8, 9], [10, 12], [7, 8], [9, 11], [1, 1], []⟩)[0]? =
      some (some 3) ∧
    (calculate_true_range ⟨[8, 9], [10, 12], [7, 8], [9, 11], [1, 1], []⟩)[1]? =
      some (some 4) := by
  have h := true_range_values ⟨[8, 9], [10, 12], [7, 8], [9, 11], [1, 1], []⟩ 2
    rfl rfl rfl (by omega)
  constructor
  · have h0 := h.1
    norm_num at h0
    exact h0
  · have h1 := h.2 1 (by omega) (by omega)
    norm_num at h1
    exact h1

/-! ### Remaining indicator functions -/

/-- pandas `Series.rolling(window=w).mean()`: defined from index `w-1`
onwards as the mean of the trailing `w` entries, `NaN` before. -/
def rollingMean (w : ℕ) (xs : List ℚ) : List (Option ℚ) :=
  (List.range xs.length).map (fun i =>
    if 1 ≤ w ∧ w ≤ i + 1 then some (meanQ ((xs.drop (i + 1 - w)).take w)) else none)

/-- Sample variance with the pandas default `ddof=1`. -/
def sampleVar (xs : List ℚ) : ℚ :=
  ((xs.map (fun x => (x - meanQ xs) ^ 2)).sum) / ((xs.length : ℚ) - 1)

/-- pandas `Series.rolling(window=w).std()`: square root of the trailing
sample variance; `NaN` before index `w-1` and for `w = 1` (zero degrees
of freedom give the float `0/0`).  The square root is the supplied `sq`. -/
def rollingStd (sq : ℚ → ℚ) (w : ℕ) (xs : List ℚ) : List (Option ℚ) :=
  (List.range xs.length).map (fun i =>
    if 2 ≤ w ∧ w ≤ i + 1 then some (sq (sampleVar ((xs.drop (i + 1 - w)).take w))) else none)

/-- `sma.calculate_sma(data, period)`: `data.rolling(window=period).mean()`. -/
def calculate_sma (data : List ℚ) (period : ℕ) : List (Option ℚ) :=
  rollingMean period data

/-- `macd.calculate_macd(data, fast, slow, signal)`: fast and slow EMAs
of the closes, their difference, the signal EMA of that difference, and
the histogram, returned as the columns `(macd, macd_signal,
macd_histogram)`. -/
def calculate_macd (data : List ℚ) (fast slow signal : ℕ) :
    List (Option ℚ) × List (Option ℚ) × List (Option ℚ) :=
  let emaFast := ewmAdjFalse (2 / ((fast : ℚ) + 1)) (data.map some)
  let emaSlow := ewmAdjFalse (2 / ((slow : ℚ) + 1)) (data.map some)
  let macdLine := zipWithOpt (fun a b => a - b) emaFast emaSlow
  let signalLine := ewmAdjFalse (2 / ((signal : ℚ) + 1)) macdLine
  let histogram := zipWithOpt (fun a b => a - b) macdLine signalLine
  (macdLine, signalLine, histogram)

/-- `bollinger.calculate_bollinger_bands(data, period, std_dev)`:
middle band, bands at `k` sample standard deviations, `%B` and
bandwidth, returned as named columns in source order.  A zero band
width or zero middle band makes the float quotients `±inf`/`NaN`; the
embedding uses the undefined marker there. -/
def calculate_bollinger_bands (sq : ℚ → ℚ) (data : List ℚ) (period : ℕ) (k : ℚ) :
    List (String × List (Option ℚ)) :=
  let middle := rollingMean period data
  let std := rollingStd sq period data
  let upper := zipWithOpt (fun m s => m + s * k) middle std
  let lower := zipWithOpt (fun m s => m - s * k) middle std
  let percentB := List.zipWith (fun c ul =>
    match ul with
    | (some u, some l) => if u - l = 0 then none else some ((c - l) / (u - l))
    | _ => none) data (upper.zip lower)
  let bandwidth := List.zipWith (fun ul m =>
    match ul, m with
    | (some u, some l), some m => if m = 0 then none else some ((u - l) / m)
    | _, _ => none) (upper.zip lower) middle
  [("bb_upper", upper), ("bb_middle", middle), ("bb_lower", lower),
   ("bb_percent_b", percentB), ("bb_bandwidth", bandwidth)]

/-- `obv.calculate_obv(df)`: cumulative sum of signed volume; the `NaN`
head of `close.diff()` fails both comparisons and contributes `0`. -/
def calculate_obv (df : DataFrame) : List ℚ :=
  cumsumQ (List.zipWith (fun d v =>
    match d with
    | some d => if 0 < d then v else if d < 0 then -v else 0
    | none => 0) (diffQ df.close) df.volume)

/-- `obv.calculate_obv_ema(df, period)`: EMA of OBV with span `period`. -/
def calculate_obv_ema (df : DataFrame) (period : ℕ) : List (Option ℚ) :=
  ewmAdjFalse (2 / ((period : ℚ) + 1)) ((calculate_obv df).map some)

/-- `adx.calculate_directional_movement(df)`: `+DM`/`-DM` from the
high/low differences; the `NaN` heads fail the comparisons and give `0`. -/
def calculate_directional_movement (df : DataFrame) : List ℚ × List ℚ :=
  let hd := diffQ df.high
  let ld := diffQ df.low
  (List.zipWith (fun h l =>
      match h, l with
      | some h, some l => if l < h ∧ 0 < h then h else 0
      | _, _ => 0) hd ld,
   List.zipWith (fun h l =>
      match h, l with
      | some h, some l => if h < l ∧ 0 < l then l else 0
      | _, _ => 0) hd ld)

/-- `adx.calculate_adx(df, period)`: smoothed True Range and directional
movements, directional indicators, `DX` and its smoothing, as named
columns in source order.  Zero smoothed-TR or zero `+DI + -DI` makes the
float quotients `±inf`/`NaN`; the embedding uses the undefined marker. -/
def calculate_adx (df : DataFrame) (period : ℕ) : List (String × List (Option ℚ)) :=
  let a := 2 / ((period : ℚ) + 1)
  let trSmooth := ewmAdjFalse a (calculate_true_range df)
  let dm := calculate_directional_movement df
  let pdmSmooth := ewmAdjFalse a (dm.1.map some)
  let mdmSmooth := ewmAdjFalse a (dm.2.map some)
  let pdi := List.zipWith (fun d t =>
    match d, t with
    | some d, some t => if t = 0 then none else some (100 * (d / t))
    | _, _ => none) pdmSmooth trSmooth
  let mdi := List.zipWith (fun d t =>
    match d, t with
    | some d, some t => if t = 0 then none else some (100 * (d / t))
    | _, _ => none) mdmSmooth trSmooth
  let dx := List.zipWith (fun p m =>
    match p, m with
    | some p, some m => if p + m = 0 then none else some (100 * |p - m| / (p + m))
    | _, _ => none) pdi mdi
  let adxCol := ewmAdjFalse a dx
  [("adx", adxCol), ("plus_di", pdi), ("minus_di", mdi), ("dx", dx)]

/-! ### The add-to-dataframe wrappers and the engine
(`src/indicators/__init__.py` and the `add_*` functions).  Each wrapper
copies its argument and assigns columns on the copy, so the caller's
frame (first component of the result) is returned unchanged. -/

/-- `ema.calculate_multiple_emas(df, periods)`. -/
def calculate_multiple_emas (df : DataFrame) (periods : List ℕ) : DataFrame × DataFrame :=
  (df, periods.foldl
    (fun r p => r.setCol ("ema_" ++ toString p) (calculate_ema df.close p)) df.copy)

/-- `sma.calculate_multiple_smas(df, periods)`. -/
def calculate_multiple_smas (df : DataFrame) (periods : List ℕ) : DataFrame × DataFrame :=
  (df, periods.foldl
    (fun r p => r.setCol ("sma_" ++ toString p) (calculate_sma df.close p)) df.copy)

/-- `rsi.add_rsi_to_dataframe(df, period)`. -/
def add_rsi_to_dataframe (df : DataFrame) (period : ℕ) : DataFrame × DataFrame :=
  (df, df.copy.setCol ("rsi_" ++ toString period) (calculate_rsi df.close period))

/-- `macd.add_macd_to_dataframe(df, fast, slow, signal)`. -/
def add_macd_to_dataframe (df : DataFrame) (fast slow signal : ℕ) : DataFrame × DataFrame :=
  let m := calculate_macd df.close fast slow signal
  (df, ((df.copy.setCol "macd" m.1).setCol "macd_signal" m.2.1).setCol
    "macd_histogram" m.2.2)

/-- `bollinger.add_bollinger_bands_to_dataframe(df, period, std_dev)`. -/
def add_bollinger_bands_to_dataframe (sq : ℚ → ℚ) (df : DataFrame) (period : ℕ) (k : ℚ) :
    DataFrame × DataFrame :=
  (df, (calculate_bollinger_bands sq df.close period k).foldl
    (fun r c => r.setCol c.1 c.2) df.copy)

/-- `atr.add_atr_to_dataframe(df, period)`. -/
def add_atr_to_dataframe (df : DataFrame) (period : ℕ) : DataFrame × DataFrame :=
  (df, (df.copy.setCol ("atr_" ++ toString period) (calculate_atr df period)).setCol
    "true_range" (calculate_true_range df))

/-- `adx.add_adx_to_dataframe(df, period)`. -/
def add_adx_to_dataframe (df : DataFrame) (period : ℕ) : DataFrame × DataFrame :=
  (df, (calculate_adx df period).foldl
    (fun r c => r.setCol (c.1 ++ "_" ++ toString period) c.2) df.copy)

/-- `obv.add_obv_to_dataframe(df, ema_period)`. -/
def add_obv_to_dataframe (df : DataFrame) (emaPeriod : ℕ) : DataFrame × DataFrame :=
  (df, ((df.copy.setCol "obv" ((calculate_obv df).map some)).setCol
    ("obv_ema_" ++ toString emaPeriod) (calculate_obv_ema df emaPeriod)).setCol
    ("volume_ma_" ++ toString emaPeriod) (rollingMean emaPeriod df.volume))

/-- `indicators.calculate_all_indicators(df, indicators)`: copies the
input, dispatches on each requested indicator name (unknown names are
skipped with a warning), and returns the accumulated result. -/
def calculate_all_indicators (sq : ℚ → ℚ) (df : DataFrame) (indicators : List String) :
    DataFrame × DataFrame :=
  (df, indicators.foldl (fun r ind =>
    if ind = "ema" then (calculate_multiple_emas r [20, 50, 200]).2
    else if ind = "sma" then (calculate_multiple_smas r [20, 50, 200]).2
    else if ind = "rsi" then (add_rsi_to_dataframe r 14).2
    else if ind = "macd" then (add_macd_to_dataframe r 12 26 9).2
    else if ind = "bollinger" then (add_bollinger_bands_to_dataframe sq r 20 2).2
    else if ind = "atr" then (add_atr_to_dataframe r 14).2
    else if ind = "adx" then (add_adx_to_dataframe r 14).2
    else if ind = "obv" then (add_obv_to_dataframe r 20).2
    else r) df.copy)

/-- C8: for every input OHLCV frame and every list of requested
indicator names, running the indicator engine leaves the caller's input
frame unchanged (first component of the state-passing embedding), and so
does `calculate_multiple_emas`; all computation happens on `df.copy()`. -/
theorem engine_never_mutates_input (sq : ℚ → ℚ) (df : DataFrame)
    (indicators : List String) (periods : List ℕ) :
    (calculate_all_indicators sq df indicators).1 = df ∧
    (calculate_multiple_emas df periods).1 = df :=
  ⟨rfl, rfl⟩

/-! ### Column lengths -/

theorem diffQ_length (xs : List ℚ) : (diffQ xs).length = xs.length := by
  cases xs with
  | nil => rfl
  | cons x l => simp [diffQ]

theorem cumsumGo_length (acc : ℚ) (xs : List ℚ) :
    (cumsumGo acc xs).length = xs.length := by
  induction xs generalizing acc with
  | nil => rfl
  | cons x l ih => simp [cumsumGo, ih]

theorem cumsumQ_length (xs : List ℚ) : (cumsumQ xs).length = xs.length :=
  cumsumGo_length 0 xs

theorem rollingMean_length (w : ℕ) (xs : List ℚ) :
    (rollingMean w xs).length = xs.length := by
  simp [rollingMean]

theorem rollingStd_length (sq : ℚ → ℚ) (w : ℕ) (xs : List ℚ) :
    (rollingStd sq w xs).length = xs.length := by
  simp [rollingStd]

theorem zipWithOpt_length (f : ℚ → ℚ → ℚ) (xs ys : List (Option ℚ)) :
    (zipWithOpt f xs ys).length = min xs.length ys.length := by
  simp [zipWithOpt]

theorem calculate_ema_length (data : List ℚ) (period : ℕ) :
    (calculate_ema data period).length = data.length := by
  simp [calculate_ema, ewmAdjFalse_length]

theorem rsiGains_length (data : List ℚ) : (rsiGains data).length = data.length := by
  simp [rsiGains, diffQ_length]

theorem rsiLosses_length (data : List ℚ) : (rsiLosses data).length = data.length := by
  simp [rsiLosses, diffQ_length]

theorem calculate_rsi_length (data : List ℚ) (period : ℕ) :
    (calculate_rsi data period).length = data.length := by
  simp [calculate_rsi, rsiAvgGains, rsiAvgLosses, ewmAdjFalse_length,
    rsiGains_length, rsiLosses_length]

theorem calculate_sma_length (data : List ℚ) (period : ℕ) :
    (calculate_sma data period).length = data.length := by
  simp [calculate_sma, rollingMean_length]

theorem calculate_macd_length (data : List ℚ) (fast slow signal : ℕ) :
    (calculate_macd data fast slow signal).1.length = data.length ∧
    (calculate_macd data fast slow signal).2.1.length = data.length ∧
    (calculate_macd data fast slow signal).2.2.length = data.length := by
  simp [calculate_macd, zipWithOpt_length, ewmAdjFalse_length]

theorem calculate_bollinger_bands_length (sq : ℚ → ℚ) (data : List ℚ)
    (period : ℕ) (k : ℚ) :
    ∀ c ∈ calculate_bollinger_bands sq data period k, c.2.length = data.length := by
  intro c hc
  simp only [calculate_bollinger_bands, List.mem_cons, List.not_mem_nil, or_false] at hc
  rcases hc with rfl | rfl | rfl | rfl | rfl <;>
    simp [zipWithOpt_length, rollingMean_length, rollingStd_length, List.length_zip]

theorem calculate_obv_length (df : DataFrame) (n : ℕ)
    (hc : df.close.length = n) (hv : df.volume.length = n) :
    (calculate_obv df).length = n := by
  simp [calculate_obv, cumsumQ_length, diffQ_length, hc, hv]

theorem calculate_obv_ema_length (df : DataFrame) (period : ℕ) (n : ℕ)
    (hc : df.close.length = n) (hv : df.volume.length = n) :
    (calculate_obv_ema df period).length = n := by
  simp [calculate_obv_ema, ewmAdjFalse_length, calculate_obv_length df n hc hv]

theorem calculate_directional_movement_length (df : DataFrame) (n : ℕ)
    (hh : df.high.length = n) (hl : df.low.length = n) :
    (calculate_directional_movement df).1.length = n ∧
    (calculate_directional_movement df).2.length = n := by
  simp [calculate_directional_movement, diffQ_length, hh, hl]

theorem calculate_adx_length (df : DataFrame) (period : ℕ) (n : ℕ)
    (hh : df.high.length = n) (hl : df.low.length = n) (hc : df.close.length = n) :
    ∀ c ∈ calculate_adx df period, c.2.length = n := by
  intro c hcm
  have htr := calculate_true_range_length df n hh hl hc
  have hdm := calculate_directional_movement_length df n hh hl
  simp only [calculate_adx, List.mem_cons, List.not_mem_nil, or_false] at hcm
  rcases hcm with rfl | rfl | rfl | rfl <;>
    simp [ewmAdjFalse_length, htr, hdm.1, hdm.2]

/-! ### Engine invariant: every appended column has the input length -/

/-- All five base columns of a frame have length `n`. -/
def baseLen (df : DataFrame) (n : ℕ) : Prop :=
  df.opn.length = n ∧ df.high.length = n ∧ df.low.length = n ∧
  df.close.length = n ∧ df.volume.length = n

/-- Invariant carried through the engine: base columns of length `n`
and every appended indicator column of length `n`. -/
def EngineInv (df : DataFrame) (n : ℕ) : Prop :=
  baseLen df n ∧ ∀ p ∈ df.extra, p.2.length = n

theorem setColList_length {extra : List (String × List (Option ℚ))}
    {name : String} {col : List (Option ℚ)} {n : ℕ}
    (hall : ∀ p ∈ extra, p.2.length = n) (hcol : col.length = n) :
    ∀ p ∈ setColList extra name col, p.2.length = n := by
  intro p hp
  unfold setColList at hp
  split at hp
  · simp only [List.mem_map] at hp
    obtain ⟨q, hq, hpe⟩ := hp
    by_cases hqn : q.1 = name
    · rw [if_pos hqn] at hpe
      rw [← hpe]
      exact hcol
    · rw [if_neg hqn] at hpe
      rw [← hpe]
      exact hall q hq
  · rw [List.mem_append] at hp
    rcases hp with hp | hp
    · exact hall p hp
    · simp only [List.mem_singleton] at hp
      subst hp
      exact hcol

theorem setCol_inv {df : DataFrame} {n : ℕ} {name : String} {col : List (Option ℚ)}
    (h : EngineInv df n) (hcol : col.length = n) :
    EngineInv (df.setCol name col) n :=
  ⟨h.1, setColList_length h.2 hcol⟩

theorem foldl_preserve {β : Type} (P : DataFrame → Prop) (f : DataFrame → β → DataFrame)
    (hf : ∀ r b, P r → P (f r b)) :
    ∀ (l : List β) (r : DataFrame), P r → P (l.foldl f r) := by
  intro l
  induction l with
  | nil => intro r hr; exact hr
  | cons b bs ih => intro r hr; exact ih (f r b) (hf r b hr)

theorem foldl_preserve_mem {β : Type} (P : DataFrame → Prop) (f : DataFrame → β → DataFrame) :
    ∀ (l : List β), (∀ r b, b ∈ l → P r → P (f r b)) →
    ∀ (r : DataFrame), P r → P (l.foldl f r) := by
  intro l
  induction l with
  | nil => intro _ r hr; exact hr
  | cons b bs ih =>
    intro hf r hr
    exact ih (fun r2 b2 hb2 hr2 => hf r2 b2 (List.mem_cons_of_mem b hb2) hr2)
      (f r b) (hf r b (List.mem_cons_self b bs) hr)

theorem calculate_multiple_emas_inv (df : DataFrame) (n : ℕ) (periods : List ℕ)
    (h : EngineInv df n) : EngineInv (calculate_multiple_emas df periods).2 n := by
  refine foldl_preserve (fun r => EngineInv r n) _ ?_ periods df.copy h
  intro r p hr
  exact setCol_inv hr (by rw [calculate_ema_length]; exact h.1.2.2.2.1)

theorem calculate_multiple_smas_inv (df : DataFrame) (n : ℕ) (periods : List ℕ)
    (h : EngineInv df n) : EngineInv (calculate_multiple_smas df periods).2 n := by
  refine foldl_preserve (fun r => EngineInv r n) _ ?_ periods df.copy h
  intro r p hr
  exact setCol_inv hr (by rw [calculate_sma_length]; exact h.1.2.2.2.1)

theorem add_rsi_inv (df : DataFrame) (n : ℕ) (period : ℕ)
    (h : EngineInv df n) : EngineInv (add_rsi_to_dataframe df period).2 n :=
  setCol_inv h (by rw [calculate_rsi_length]; exact h.1.2.2.2.1)

theorem add_macd_inv (df : DataFrame) (n : ℕ) (fast slow signal : ℕ)
    (h : EngineInv df n) : EngineInv (add_macd_to_dataframe df fast slow signal).2 n := by
  have hm := calculate_macd_length df.close fast slow signal
  have hc := h.1.2.2.2.1
  exact setCol_inv (setCol_inv (setCol_inv h (by rw [hm.1]; exact hc))
    (by rw [hm.2.1]; exact hc)) (by rw [hm.2.2]; exact hc)

theorem add_bollinger_inv (sq : ℚ → ℚ) (df : DataFrame) (n : ℕ) (period : ℕ) (k : ℚ)
    (h : EngineInv df n) :
    EngineInv (add_bollinger_bands_to_dataframe sq df period k).2 n := by
  have hb := calculate_bollinger_bands_length sq df.close period k
  have hc := h.1.2.2.2.1
  refine foldl_preserve_mem (fun r => EngineInv r n) _ _ ?_ df.copy h
  intro r c hcm hr
  exact setCol_inv hr (by rw [hb c hcm]; exact hc)

theorem add_atr_inv (df : DataFrame) (n : ℕ) (period : ℕ)
    (h : EngineInv df n) : EngineInv (add_atr_to_dataframe df period).2 n := by
  obtain ⟨⟨ho, hh, hl, hc, hv⟩, hextra⟩ := h
  exact setCol_inv (setCol_inv ⟨⟨ho, hh, hl, hc, hv⟩, hextra⟩
      (calculate_atr_length df period n hh hl hc))
    (calculate_true_range_length df n hh hl hc)

theorem add_adx_inv (df : DataFrame) (n : ℕ) (period : ℕ)
    (h : EngineInv df n) : EngineInv (add_adx_to_dataframe df period).2 n := by
  have ha := calculate_adx_length df period n h.1.2.1 h.1.2.2.1 h.1.2.2.2.1
  refine foldl_preserve_mem (fun r => EngineInv r n) _ _ ?_ df.copy h
  intro r c hcm hr
  exact setCol_inv hr (ha c hcm)

theorem add_obv_inv (df : DataFrame) (n : ℕ) (period : ℕ)
    (h : EngineInv df n) : EngineInv (add_obv_to_dataframe df period).2 n := by
  obtain ⟨⟨ho, hh, hl, hc, hv⟩, hextra⟩ := h
  refine setCol_inv (setCol_inv (setCol_inv ⟨⟨ho, hh, hl, hc, hv⟩, hextra⟩ ?_) ?_) ?_
  · rw [List.length_map]; exact calculate_obv_length df n hc hv
  · exact calculate_obv_ema_length df period n hc hv
  · rw [rollingMean_length]; exact hv

theorem calculate_all_indicators_inv (sq : ℚ → ℚ) (df : DataFrame)
    (inds : List String) (n : ℕ) (h : EngineInv df n) :
    EngineInv (calculate_all_indicators sq df inds).2 n := by
  refine foldl_preserve (fun r => EngineInv r n) _ ?_ inds df.copy h
  intro r ind hr
  dsimp only
  by_cases h1 : ind = "ema"
  · rw [if_pos h1]; exact calculate_multiple_emas_inv r n _ hr
  rw [if_neg h1]
  by_cases h2 : ind = "sma"
  · rw [if_pos h2]; exact calculate_multiple_smas_inv r n _ hr
  rw [if_neg h2]
  by_cases h3 : ind = "rsi"
  · rw [if_pos h3]; exact add_rsi_inv r n _ hr
  rw [if_neg h3]
  by_cases h4 : ind = "macd"
  · rw [if_pos h4]; exact add_macd_inv r n _ _ _ hr
  rw [if_neg h4]
  by_cases h5 : ind = "bollinger"
  · rw [if_pos h5]; exact add_bollinger_inv sq r n _ _ hr
  rw [if_neg h5]
  by_cases h6 : ind = "atr"
  · rw [if_pos h6]; exact add_atr_inv r n _ hr
  rw [if_neg h6]
  by_cases h7 : ind = "adx"
  · rw [if_pos h7]; exact add_adx_inv r n _ hr
  rw [if_neg h7]
  by_cases h8 : ind = "obv"
  · rw [if_pos h8]; exact add_obv_inv r n _ hr
  rw [if_neg h8]
  exact hr

/-- C9: for every input frame whose columns have length `n` and every
period `p ≥ 1`, the indicator columns are index-aligned sequences of
exactly `n` entries: `EMA(p)` and `ATR(p)` have length `n`, and every
column appended by the engine, for any requested indicator list, has
length `n`. -/
theorem indicator_columns_have_input_length (sq : ℚ → ℚ) (df : DataFrame)
    (indicators : List String) (n : ℕ) (period : ℕ)
    (hp : 1 ≤ period) (hb : baseLen df n) (hextra : df.extra = []) :
    (calculate_ema df.close period).length = n ∧
    (calculate_atr df period).length = n ∧
    ∀ p ∈ (calculate_all_indicators sq df indicators).2.extra, p.2.length = n := by
  obtain ⟨ho, hh, hl, hc, hv⟩ := hb
  refine ⟨by rw [calculate_ema_length]; exact hc,
    calculate_atr_length df period n hh hl hc, ?_⟩
  have h := calculate_all_indicators_inv sq df indicators n
    ⟨⟨ho, hh, hl, hc, hv⟩, by rw [hextra]; intro p hp0; simp at hp0⟩
  exact h.2

/-- Witness for C9 on a two-candle frame with the engine run on
`["ema", "atr", "unknown"]` and period `1`. -/
theorem indicator_columns_have_input_length_witness :
    (calculate_ema ([9, 11] : List ℚ) 1).length = 2 ∧
    (calculate_atr ⟨[8, 9], [10, 12], [7, 8], [9, 11], [1, 1], []⟩ 1).length = 2 ∧
    ∀ p ∈ (calculate_all_indicators id ⟨[8, 9], [10, 12], [7, 8], [9, 11], [1, 1], []⟩
      ["ema", "atr", "unknown"]).2.extra, p.2.length = 2 :=
  indicator_columns_have_input_length id ⟨[8, 9], [10, 12], [7, 8], [9, 11], [1, 1], []⟩
    ["ema", "atr", "unknown"] 2 1 (le_refl 1)
    ⟨rfl, rfl, rfl, rfl, rfl⟩ rfl

/-! ### Freshness policy (`snapshot_exporter.SnapshotExporter`) -/

/-- Naive UTC datetime as the exporter uses it (timezone stripped before
comparison). -/
structure PyDateTime where
  year : ℕ
  month : ℕ
  day : ℕ
  hour : ℕ
  minute : ℕ
  second : ℕ
deriving DecidableEq

/-- `datetime.date()`. -/
def PyDateTime.date (t : PyDateTime) : ℕ × ℕ × ℕ := (t.year, t.month, t.day)

/-- State of the persisted `meta['run_timestamp']` field: missing or
falsy, present but failing `datetime.fromisoformat`, or parsed. -/
inductive TsField where
  | absent : TsField
  | malformed : TsField
  | valid : PyDateTime → TsField

/-- The `meta` section of a persisted horizon payload (only the field
the freshness decision reads). -/
structure MetaSection where
  runTimestamp : TsField

/-- `_crossed_data_boundary(last_run, now, granularity)`: granularity
`1h` compares calendar hour and date, `4h` compares `hour // 4` buckets
and date, `1d` compares dates, anything else falls back to the `1h`
rule. -/
def crossed_data_boundary (lastRun now : PyDateTime) (granularity : String) : Bool :=
  if granularity = "1h" then
    decide (lastRun.hour ≠ now.hour ∨ lastRun.date ≠ now.date)
  else if granularity = "4h" then
    decide (lastRun.hour / 4 ≠ now.hour / 4 ∨ lastRun.date ≠ now.date)
  else if granularity = "1d" then
    decide (lastRun.date ≠ now.date)
  else
    decide (lastRun.hour ≠ now.hour ∨ lastRun.date ≠ now.date)

/-- `_crossed_daily_boundary(last_run, now)`. -/
def crossed_daily_boundary (lastRun now : PyDateTime) : Bool :=
  decide (lastRun.date ≠ now.date)

/-- `_determine_freshness(existing_snapshot, now, granularity,
force_hourly, force_daily)`.  `existing` is `none` when the horizon
payload is missing or falsy, `some none` when it has no `meta` key, and
`some (some m)` otherwise; a missing, falsy or unparseable
`run_timestamp` is represented by `TsField.absent` / `TsField.malformed`
(the `except` handler makes the parse failure a `(true, true)` return,
not an exception). -/
def determine_freshness (existing : Option (Option MetaSection)) (now : PyDateTime)
    (granularity : String) (forceHourly forceDaily : Bool) : Bool × Bool :=
  if forceHourly && forceDaily then (true, true)
  else if forceHourly then (true, false)
  else if forceDaily then (true, true)
  else
    match existing with
    | none => (true, true)
    | some none => (true, true)
    | some (some meta) =>
      match meta.runTimestamp with
      | TsField.absent => (true, true)
      | TsField.malformed => (true, true)
      | TsField.valid lastRun =>
        (crossed_data_boundary lastRun now granularity,
         crossed_daily_boundary lastRun now)

/-- C1: the freshness decision, case by case in the priority order of
the source: both force flags give `(true, true)`; only `force_hourly`
gives `(true, false)`; only `force_daily` gives `(true, true)`; with no
force flag and no prior state, `(true, true)`; otherwise
`include_history` is the granularity-specific boundary crossing
(`1h` hour-or-date, `4h` hour-quotient-or-date, `1d` date, unknown
granularity the `1h` rule) and `include_long_stats` is date change,
independent of granularity. -/
theorem freshness_decision_cases (existing : Option (Option MetaSection))
    (now : PyDateTime) (g : String) (fh fd : Bool) :
    (fh = true → fd = true →
      determine_freshness existing now g fh fd = (true, true)) ∧
    (fh = true → fd = false →
      determine_freshness existing now g fh fd = (true, false)) ∧
    (fh = false → fd = true →
      determine_freshness existing now g fh fd = (true, true)) ∧
    (fh = false → fd = false → existing = none →
      determine_freshness existing now g fh fd = (true, true)) ∧
    (∀ (lastRun : PyDateTime) (m : MetaSection), fh = false → fd = false →
      existing = some (some m) → m.runTimestamp = TsField.valid lastRun →
      ((determine_freshness existing now g fh fd).2 =
        decide (lastRun.date ≠ now.date)) ∧
      (g = "1h" → (determine_freshness existing now g fh fd).1 =
        decide (lastRun.hour ≠ now.hour ∨ lastRun.date ≠ now.date)) ∧
      (g = "4h" → (determine_freshness existing now g fh fd).1 =
        decide (lastRun.hour / 4 ≠ now.hour / 4 ∨ lastRun.date ≠ now.date)) ∧
      (g = "1d" → (determine_freshness existing now g fh fd).1 =
        decide (lastRun.date ≠ now.date)) ∧
      (g ≠ "1h" → g ≠ "4h" → g ≠ "1d" →
        (determine_freshness existing now g fh fd).1 =
          decide (lastRun.hour ≠ now.hour ∨ lastRun.date ≠ now.date))) := by
  refine ⟨?_, ?_, ?_, ?_, ?_⟩
  · intro h1 h2; subst h1; subst h2; rfl
  · intro h1 h2; subst h1; subst h2; rfl
  · intro h1 h2; subst h1; subst h2; rfl
  · intro h1 h2 h3; subst h1; subst h2; subst h3; rfl
  · intro lastRun m h1 h2 h3 h4
    subst h1; subst h2; subst h3
    simp only [determine_freshness, Bool.and_self, Bool.false_and, if_neg,
      Bool.false_eq_true, not_false_iff, if_false, h4]
    refine ⟨rfl, ?_, ?_, ?_, ?_⟩
    · intro hg; subst hg; rfl
    · intro hg; subst hg; rfl
    · intro hg; subst hg; rfl
    · intro hg1 hg2 hg3
      simp [crossed_data_boundary, hg1, hg2, hg3]

/-- Witness for C1: the spec scenario with granularity `1h`,
`last_run = 2024-01-01T10:59:00`, `now = 2024-01-01T11:00:05` and no
force flags yields `(true, false)`: the hour boundary was crossed but
the date did not change. -/
theorem freshness_decision_cases_witness :
    determine_freshness
      (some (some ⟨TsField.valid ⟨2024, 1, 1, 10, 59, 0⟩⟩))
      ⟨2024, 1, 1, 11, 0, 5⟩ "1h" false false = (true, false) := by
  have h := (freshness_decision_cases
    (some (some ⟨TsField.valid ⟨2024, 1, 1, 10, 59, 0⟩⟩))
    ⟨2024, 1, 1, 11, 0, 5⟩ "1h" false false).2.2.2.2
    ⟨2024, 1, 1, 10, 59, 0⟩ ⟨TsField.valid ⟨2024, 1, 1, 10, 59, 0⟩⟩
    rfl rfl rfl rfl
  have h1 := h.2.1 rfl
  have h2 := h.1
  rw [Prod.ext_iff]
  constructor
  · rw [h1]; decide
  · rw [h2]; decide

/-- C10 counterexample: with `force_hourly` set and `force_daily` not,
a malformed prior state yields `(true, false)`, not the `(true, true)`
the claim requires of every such input. -/
theorem freshness_malformed_counterexample :
    determine_freshness (some (some ⟨TsField.malformed⟩))
      ⟨2024, 1, 1, 11, 0, 5⟩ "1h" true false = (true, false) ∧
    determine_freshness (some (some ⟨TsField.malformed⟩))
      ⟨2024, 1, 1, 11, 0, 5⟩ "1h" true false ≠ (true, true) := by
  constructor
  · rfl
  · intro h
    simp [determine_freshness] at h

/-- C10 (amended): a prior state that exists but is malformed — the
`meta` section missing, the `run_timestamp` absent, or the timestamp
unparseable — makes the freshness decision behave exactly like the
cold-start (no prior state) case for every force-flag combination; in
particular, with neither force flag set it returns `(true, true)`.  No
exception propagates: the decision is a total function. -/
theorem freshness_malformed_like_cold_start (now : PyDateTime) (g : String)
    (fh fd : Bool) :
    (determine_freshness (some none) now g fh fd =
      determine_freshness none now g fh fd) ∧
    (determine_freshness (some (some ⟨TsField.absent⟩)) now g fh fd =
      determine_freshness none now g fh fd) ∧
    (determine_freshness (some (some ⟨TsField.malformed⟩)) now g fh fd =
      determine_freshness none now g fh fd) ∧
    (fh = false → fd = false →
      determine_freshness (some none) now g fh fd = (true, true) ∧
      determine_freshness (some (some ⟨TsField.absent⟩)) now g fh fd = (true, true) ∧
      determine_freshness (some (some ⟨TsField.malformed⟩)) now g fh fd = (true, true)) := by
  refine ⟨?_, ?_, ?_, ?_⟩
  · cases fh <;> cases fd <;> rfl
  · cases fh <;> cases fd <;> rfl
  · cases fh <;> cases fd <;> rfl
  · intro h1 h2; subst h1; subst h2; exact ⟨rfl, rfl, rfl⟩

/-- Witness for C10 (amended) at a concrete time with no force flags. -/
theorem freshness_malformed_like_cold_start_witness :
    determine_freshness (some (some ⟨TsField.malformed⟩))
      ⟨2024, 1, 1, 11, 0, 5⟩ "1h" false false = (true, true) :=
  ((freshness_malformed_like_cold_start ⟨2024, 1, 1, 11, 0, 5⟩ "1h"
    false false).2.2.2 rfl rfl).2.2

/-! ### OBV-trend signal (`snapshot_exporter._add_indicator_signals`,
OBV clause) -/

/-- The OBV-trend clause of `_add_indicator_signals`: requires the
`obv` column and at least 5 rows, takes the trailing 5 entries, drops
`NaN`s, and with at least 2 valid points compares last against first;
otherwise no signal is set (and no exception is raised — the function
is total). -/
def obv_trend_signal (df : DataFrame) : Option String :=
  match getCol df.extra "obv" with
  | none => none
  | some col =>
    if 5 ≤ df.close.length then
      let recent := (tailN 5 col).filterMap id
      if 2 ≤ recent.length then
        some (if recent.headD 0 < recent.getLastD 0 then "up"
          else if recent.getLastD 0 < recent.headD 0 then "down"
          else "flat")
      else none
    else none

/-- C5 counterexample: a frame with only 3 rows whose trailing
5-period window holds 3 valid OBV points (at least the 2 the claim
requires) still gets no OBV-trend signal, because the code first
requires `len(df) >= 5`. -/
theorem obv_trend_counterexample :
    2 ≤ ((tailN 5 [some (1 : ℚ), some 2, some 3]).filterMap id).length ∧
    obv_trend_signal ⟨[1, 1, 1], [2, 2, 2], [0, 0, 0], [1, 2, 3], [5, 5, 5],
      [("obv", [some 1, some 2, some 3])]⟩ = none := by
  constructor
  · decide
  · rfl

/-- C5 (amended): with an `obv` column present, the OBV-trend signal is
defined — `up`, `down` or `flat` by comparing the first and the last
valid OBV value of the trailing 5-period window — exactly when the
frame has at least 5 rows and that window holds at least 2 valid
points; it is absent (with no exception) when the frame has fewer than
5 rows or the window holds fewer than 2 valid points. -/
theorem obv_trend_signal_cases (df : DataFrame) (col : List (Option ℚ))
    (hcol : getCol df.extra "obv" = some col) :
    (5 ≤ df.close.length → 2 ≤ ((tailN 5 col).filterMap id).length →
      obv_trend_signal df = some
        (if ((tailN 5 col).filterMap id).headD 0 <
            ((tailN 5 col).filterMap id).getLastD 0 then "up"
         else if ((tailN 5 col).filterMap id).getLastD 0 <
            ((tailN 5 col).filterMap id).headD 0 then "down"
         else "flat")) ∧
    (df.close.length < 5 → obv_trend_signal df = none) ∧
    (((tailN 5 col).filterMap id).length < 2 → obv_trend_signal df = none) := by
  refine ⟨?_, ?_, ?_⟩
  · intro h5 h2
    unfold obv_trend_signal
    rw [hcol]
    simp only [if_pos h5, if_pos h2]
  · intro h5
    unfold obv_trend_signal
    rw [hcol]
    simp only [if_neg (show ¬ 5 ≤ df.close.length by omega)]
  · intro h2
    unfold obv_trend_signal
    rw [hcol]
    by_cases h5 : 5 ≤ df.close.length
    · simp only [if_pos h5,
        if_neg (show ¬ 2 ≤ ((tailN 5 col).filterMap id).length by omega)]
    · simp only [if_neg h5]

/-- Witness for C5 (amended): five rows of rising OBV give the `up`
signal. -/
theorem obv_trend_signal_cases_witness :
    obv_trend_signal ⟨[1, 1, 1, 1, 1], [2, 2, 2, 2, 2], [0, 0, 0, 0, 0],
      [1, 2, 3, 4, 5], [5, 5, 5, 5, 5],
      [("obv", [some 1, some 2, some 3, some 4, some 5])]⟩ = some "up" := by
  have h := (obv_trend_signal_cases ⟨[1, 1, 1, 1, 1], [2, 2, 2, 2, 2], [0, 0, 0, 0, 0],
      [1, 2, 3, 4, 5], [5, 5, 5, 5, 5],
      [("obv", [some 1, some 2, some 3, some 4, some 5])]⟩
      [some 1, some 2, some 3, some 4, some 5] rfl).1 (by decide) (by decide)
  rw [h]
  norm_num [tailN]

/-! ### Cross-coin aggregation (`snapshot_exporter._build_cross_coin_analysis`) -/

/-- `performance_24h` of one coin: percentage change over 24 candles
when at least 24 rows exist, otherwise over the whole available window.
A zero reference close makes the float quotient `±inf`/`NaN`; the
embedding uses the undefined marker there. -/
def perf24h (close : List ℚ) : Option ℚ :=
  let n := close.length
  let lastc := close.getD (n - 1) 0
  let base := if 24 ≤ n then close.getD (n - 24) 0 else close.getD 0 0
  if base = 0 then none else some ((lastc - base) / base * 100)

/-- Trailing-window volatility of one coin:
`float(close.std() / close.mean() * 100) if close.mean() > 0 else 0`.
The sample standard deviation of fewer than 2 points is the float
`NaN` (the undefined marker); its square root is the supplied `sq`. -/
def volatilityOf (sq : ℚ → ℚ) (close : List ℚ) : Option ℚ :=
  if 0 < meanQ close then
    (if close.length ≤ 1 then none else some (sq (sampleVar close))).map
      (fun s => s / meanQ close * 100)
  else some 0

/-- Descending key comparison for `sorted(..., key=value, reverse=True)`.
The undefined marker compares like the float `NaN`: every comparison is
false. -/
def geKeyB (p q : String × Option ℚ) : Bool :=
  match p.2, q.2 with
  | some a, some b => decide (b ≤ a)
  | _, _ => false

/-- Ascending key comparison for `sorted(..., key=value)`. -/
def leKeyB (p q : String × Option ℚ) : Bool :=
  match p.2, q.2 with
  | some a, some b => decide (a ≤ b)
  | _, _ => false

/-- The three ranking lists of the cross-coin section. -/
structure CrossCoinRankings where
  top_momentum_24h : List String
  top_volume : List String
  lowest_volatility : List String

/-- `_build_cross_coin_analysis(results)`: skips coins whose dataframe
is empty, computes the three per-coin metrics, and sorts.  Python's
`sorted` is a stable sort, and on a total preorder of keys every stable
sort produces the same output, so it is modelled by stable insertion
sort; when a `NaN` key is present the comparisons are not a total
preorder and the source's ordering among the affected entries is
implementation-defined — the theorems below never depend on it.
Row count is measured on the `close` column. -/
def build_cross_coin_analysis (sq : ℚ → ℚ) (results : List (String × DataFrame)) :
    CrossCoinRankings :=
  let nonEmpty := results.filter (fun cf => !cf.2.close.isEmpty)
  let perf := nonEmpty.map (fun cf => (cf.1, perf24h cf.2.close))
  let vol := nonEmpty.map (fun cf => (cf.1, some (meanQ cf.2.volume)))
  let vola := nonEmpty.map (fun cf => (cf.1, volatilityOf sq cf.2.close))
  { top_momentum_24h := (List.insertionSort (fun p q => geKeyB p q = true) perf).map Prod.fst,
    top_volume := (List.insertionSort (fun p q => geKeyB p q = true) vol).map Prod.fst,
    lowest_volatility := (List.insertionSort (fun p q => leKeyB p q = true) vola).map Prod.fst }

/-- C2 counterexample: two coins with identical data (so exactly equal
metric values), inserted with `"bcoin"` before `"acoin"`, keep that
insertion order in the momentum ranking; the lexicographically smaller
identifier `"acoin"` does not come first. -/
theorem cross_coin_tie_counterexample :
    perf24h [1, 2] = some 100 ∧
    (build_cross_coin_analysis id
      [("bcoin", ⟨[1, 1], [2, 2], [0, 0], [1, 2], [5, 5], []⟩),
       ("acoin", ⟨[1, 1], [2, 2], [0, 0], [1, 2], [5, 5], []⟩)]).top_momentum_24h =
      ["bcoin", "acoin"] := by
  have hperf : perf24h [1, 2] = some 100 := by
    norm_num [perf24h]
  refine ⟨hperf, ?_⟩
  simp only [build_cross_coin_analysis, List.filter, List.isEmpty, Bool.not_false,
    List.map, hperf, List.insertionSort, List.orderedInsert]

/-- C2 (amended): in each of the three rankings, whenever two coins have
exactly equal defined metric values, the coin that appears earlier in
the metric list (the insertion order of the results mapping, empties
skipped) also appears earlier in the ranking: Python's `sorted` is
stable and keeps insertion order on ties; identifiers are not compared. -/
theorem cross_coin_ties_keep_input_order (sq : ℚ → ℚ)
    (results : List (String × DataFrame)) (x y : String × Option ℚ) (v : ℚ)
    (hx : x.2 = some v) (hy : y.2 = some v) :
    (List.Sublist [x, y] ((results.filter (fun cf => !cf.2.close.isEmpty)).map
        (fun cf => (cf.1, perf24h cf.2.close))) →
      List.Sublist [x.1, y.1] (build_cross_coin_analysis sq results).top_momentum_24h) ∧
    (List.Sublist [x, y] ((results.filter (fun cf => !cf.2.close.isEmpty)).map
        (fun cf => (cf.1, some (meanQ cf.2.volume)))) →
      List.Sublist [x.1, y.1] (build_cross_coin_analysis sq results).top_volume) ∧
    (List.Sublist [x, y] ((results.filter (fun cf => !cf.2.close.isEmpty)).map
        (fun cf => (cf.1, volatilityOf sq cf.2.close))) →
      List.Sublist [x.1, y.1] (build_cross_coin_analysis sq results).lowest_volatility) := by
  have hge : geKeyB x y = true := by simp [geKeyB, hx, hy]
  have hle : leKeyB x y = true := by simp [leKeyB, hx, hy]
  refine ⟨?_, ?_, ?_⟩ <;> intro hsub
  · have h := @List.pair_sublist_insertionSort _ (fun p q => geKeyB p q = true) _
      x y _ hge hsub
    simpa [build_cross_coin_analysis] using h.map Prod.fst
  · have h := @List.pair_sublist_insertionSort _ (fun p q => geKeyB p q = true) _
      x y _ hge hsub
    simpa [build_cross_coin_analysis] using h.map Prod.fst
  · have h := @List.pair_sublist_insertionSort _ (fun p q => leKeyB p q = true) _
      x y _ hle hsub
    simpa [build_cross_coin_analysis] using h.map Prod.fst

/-- Witness for C2 (amended): in the tied momentum example, the earlier
input coin `"bcoin"` stays before `"acoin"` in the ranking. -/
theorem cross_coin_ties_keep_input_order_witness :
    List.Sublist ["bcoin", "acoin"] ((build_cross_coin_analysis id
      [("bcoin", ⟨[1, 1], [2, 2], [0, 0], [1, 2], [5, 5], []⟩),
       ("acoin", ⟨[1, 1], [2, 2], [0, 0], [1, 2], [5, 5], []⟩)]).top_momentum_24h) := by
  have hmap : ([("bcoin", (⟨[1, 1], [2, 2], [0, 0], [1, 2], [5, 5], []⟩ : DataFrame)),
      ("acoin", ⟨[1, 1], [2, 2], [0, 0], [1, 2], [5, 5], []⟩)].filter
        (fun cf => !cf.2.close.isEmpty)).map
      (fun cf => (cf.1, perf24h cf.2.close)) =
      [("bcoin", some 100), ("acoin", some 100)] := by
    norm_num [perf24h]
  refine (cross_coin_ties_keep_input_order id
    [("bcoin", ⟨[1, 1], [2, 2], [0, 0], [1, 2], [5, 5], []⟩),
     ("acoin", ⟨[1, 1], [2, 2], [0, 0], [1, 2], [5, 5], []⟩)]
    ("bcoin", some 100) ("acoin", some 100) 100 rfl rfl).1 ?_
  rw [hmap]

/-- C4 counterexample: a coin whose series has exactly one data point
appears in all three ranking lists (with zero momentum, its volume
mean, and an undefined volatility), contradicting the claimed
exclusion. -/
theorem single_point_ranked_counterexample :
    (build_cross_coin_analysis id
      [("a", ⟨[1], [2], [0], [2], [5], []⟩)]).top_momentum_24h = ["a"] ∧
    (build_cross_coin_analysis id
      [("a", ⟨[1], [2], [0], [2], [5], []⟩)]).top_volume = ["a"] ∧
    (build_cross_coin_analysis id
      [("a", ⟨[1], [2], [0], [2], [5], []⟩)]).lowest_volatility = ["a"] := by
  refine ⟨?_, ?_, ?_⟩ <;>
    norm_num [build_cross_coin_analysis, perf24h, volatilityOf, meanQ, sampleVar]

/-- Two entries of an association list with no duplicate keys and the
same key are the same entry. -/
theorem eq_of_mem_nodup_keys {l : List (String × DataFrame)} {name : String}
    {x y : DataFrame} (hnd : (l.map Prod.fst).Nodup)
    (hx : (name, x) ∈ l) (hy : (name, y) ∈ l) : x = y := by
  induction l with
  | nil => simp at hx
  | cons p ps ih =>
    simp only [List.map, List.nodup_cons] at hnd
    rcases List.mem_cons.mp hx with hx0 | hx1
    · rcases List.mem_cons.mp hy with hy0 | hy1
      · rw [← hx0] at hy0
        exact congrArg Prod.snd hy0.symm
      · exfalso
        apply hnd.1
        rw [← hx0]
        exact List.mem_map.mpr ⟨(name, y), hy1, rfl⟩
    · rcases List.mem_cons.mp hy with hy0 | hy1
      · exfalso
        apply hnd.1
        rw [← hy0]
        exact List.mem_map.mpr ⟨(name, x), hx1, rfl⟩
      · exact ih hnd.2 hx1 hy1

/-- Membership in the name projection of a stable sort is membership in
the name projection of the input. -/
theorem mem_map_fst_sort (r : (String × Option ℚ) → (String × Option ℚ) → Prop)
    [DecidableRel r] (l : List (String × Option ℚ)) (name : String) :
    name ∈ (List.insertionSort r l).map Prod.fst ↔ name ∈ l.map Prod.fst := by
  constructor <;> intro h
  · rcases List.mem_map.mp h with ⟨p, hp, hpn⟩
    exact List.mem_map.mpr ⟨p, (List.perm_insertionSort r l).mem_iff.mp hp, hpn⟩
  · rcases List.mem_map.mp h with ⟨p, hp, hpn⟩
    exact List.mem_map.mpr ⟨p, (List.perm_insertionSort r l).mem_iff.mpr hp, hpn⟩

/-- C4 (amended): a coin with an empty series appears in none of the
three ranking lists, while every coin with at least one data point —
including single-point series, which the source does not exclude —
appears in all three. -/
theorem cross_coin_membership (sq : ℚ → ℚ) (results : List (String × DataFrame))
    (name : String) (df : DataFrame)
    (hmem : (name, df) ∈ results) (hnd : (results.map Prod.fst).Nodup) :
    (df.close = [] →
      ¬ name ∈ (build_cross_coin_analysis sq results).top_momentum_24h ∧
      ¬ name ∈ (build_cross_coin_analysis sq results).top_volume ∧
      ¬ name ∈ (build_cross_coin_analysis sq results).lowest_volatility) ∧
    (df.close ≠ [] →
      name ∈ (build_cross_coin_analysis sq results).top_momentum_24h ∧
      name ∈ (build_cross_coin_analysis sq results).top_volume ∧
      name ∈ (build_cross_coin_analysis sq results).lowest_volatility) := by
  have hfil1 : name ∈ (((results.filter (fun cf => !cf.2.close.isEmpty)).map
        (fun cf => (cf.1, perf24h cf.2.close))).map Prod.fst) ↔
      name ∈ (results.filter (fun cf => !cf.2.close.isEmpty)).map Prod.fst := by
    constructor <;> intro h
    · rcases List.mem_map.mp h with ⟨p, hp, hpn⟩
      rcases List.mem_map.mp hp with ⟨q, hq, hqe⟩
      refine List.mem_map.mpr ⟨q, hq, ?_⟩
      rw [← hpn, ← hqe]
    · rcases List.mem_map.mp h with ⟨p, hp, hpn⟩
      exact List.mem_map.mpr ⟨(p.1, perf24h p.2.close), List.mem_map.mpr ⟨p, hp, rfl⟩, hpn⟩
  have hfil2 : name ∈ (((results.filter (fun cf => !cf.2.close.isEmpty)).map
        (fun cf => (cf.1, some (meanQ cf.2.volume)))).map Prod.fst) ↔
      name ∈ (results.filter (fun cf => !cf.2.close.isEmpty)).map Prod.fst := by
    constructor <;> intro h
    · rcases List.mem_map.mp h with ⟨p, hp, hpn⟩
      rcases List.mem_map.mp hp with ⟨q, hq, hqe⟩
      refine List.mem_map.mpr ⟨q, hq, ?_⟩
      rw [← hpn, ← hqe]
    · rcases List.mem_map.mp h with ⟨p, hp, hpn⟩
      exact List.mem_map.mpr ⟨(p.1, some (meanQ p.2.volume)), List.mem_map.mpr ⟨p, hp, rfl⟩, hpn⟩
  have hfil3 : name ∈ (((results.filter (fun cf => !cf.2.close.isEmpty)).map
        (fun cf => (cf.1, volatilityOf sq cf.2.close))).map Prod.fst) ↔
      name ∈ (results.filter (fun cf => !cf.2.close.isEmpty)).map Prod.fst := by
    constructor <;> intro h
    · rcases List.mem_map.mp h with ⟨p, hp, hpn⟩
      rcases List.mem_map.mp hp with ⟨q, hq, hqe⟩
      refine List.mem_map.mpr ⟨q, hq, ?_⟩
      rw [← hpn, ← hqe]
    · rcases List.mem_map.mp h with ⟨p, hp, hpn⟩
      exact List.mem_map.mpr ⟨(p.1, volatilityOf sq p.2.close), List.mem_map.mpr ⟨p, hp, rfl⟩, hpn⟩
  constructor
  · intro hempty
    have hnot : ¬ name ∈ (results.filter (fun cf => !cf.2.close.isEmpty)).map Prod.fst := by
      intro hin
      rcases List.mem_map.mp hin with ⟨p, hp, hpn⟩
      have hpres : p ∈ results := List.mem_of_mem_filter hp
      have hppred := List.of_mem_filter hp
      have hpeq : p = (name, p.2) := by
        rw [← hpn]
      have hdf : p.2 = df := by
        apply eq_of_mem_nodup_keys hnd _ hmem
        rw [← hpeq]
        exact hpres
      rw [hdf, hempty] at hppred
      simp at hppred
    refine ⟨fun h => hnot ?_, fun h => hnot ?_, fun h => hnot ?_⟩
    · exact hfil1.mp ((mem_map_fst_sort (fun p q => geKeyB p q = true) _ name).mp
        (by simpa [build_cross_coin_analysis] using h))
    · exact hfil2.mp ((mem_map_fst_sort (fun p q => geKeyB p q = true) _ name).mp
        (by simpa [build_cross_coin_analysis] using h))
    · exact hfil3.mp ((mem_map_fst_sort (fun p q => leKeyB p q = true) _ name).mp
        (by simpa [build_cross_coin_analysis] using h))
  · intro hne
    have hin : name ∈ (results.filter (fun cf => !cf.2.close.isEmpty)).map Prod.fst := by
      refine List.mem_map.mpr ⟨(name, df), ?_, rfl⟩
      refine List.mem_filter.mpr ⟨hmem, ?_⟩
      simp [List.isEmpty_iff, hne]
    refine ⟨?_, ?_, ?_⟩
    · show name ∈ _
      simp only [build_cross_coin_analysis]
      rw [mem_map_fst_sort]
      exact hfil1.mpr hin
    · show name ∈ _
      simp only [build_cross_coin_analysis]
      rw [mem_map_fst_sort]
      exact hfil2.mpr hin
    · show name ∈ _
      simp only [build_cross_coin_analysis]
      rw [mem_map_fst_sort]
      exact hfil3.mpr hin

/-- Witness for C4 (amended): the single-point coin `"a"` is ranked in
the momentum list, the empty-series coin `"b"` is not. -/
theorem cross_coin_membership_witness :
    "a" ∈ (build_cross_coin_analysis id
      [("a", ⟨[1], [2], [0], [2], [5], []⟩),
       ("b", ⟨[], [], [], [], [], []⟩)]).top_momentum_24h ∧
    ¬ "b" ∈ (build_cross_coin_analysis id
      [("a", ⟨[1], [2], [0], [2], [5], []⟩),
       ("b", ⟨[], [], [], [], [], []⟩)]).top_momentum_24h := by
  have ha := (cross_coin_membership id
    [("a", ⟨[1], [2], [0], [2], [5], []⟩), ("b", ⟨[], [], [], [], [], []⟩)]
    "a" ⟨[1], [2], [0], [2], [5], []⟩ (by simp) (by simp)).2 (by simp)
  have hb := (cross_coin_membership id
    [("a", ⟨[1], [2], [0], [2], [5], []⟩), ("b", ⟨[], [], [], [], [], []⟩)]
    "b" ⟨[], [], [], [], [], []⟩ (by simp) (by simp)).1 rfl
  exact ⟨ha.1, hb.1⟩
